import Mathlib

/-!
Verification development for the Realtime Coach overlay of the Coach-Xiangqi
repository (browser-only advisory overlay for a xiangqi GUI).

The repository ships three near-duplicate profiles of the same core:
  * `src/gui/game/coach.js`        — the "fast-glance" coach (namespace `Coach`);
  * `unnamed/part_001`             — the "ultra strength" coach (namespace `Ultra`);
  * `unnamed/part_000`             — the puzzle mini-map coach (namespace `Puzzle`).

JavaScript strings are modelled as lists of UTF-16 code units (`List Nat`);
the space character is code 32, letter a is 97, digit 0 is 48, letter x is 120.
The external move engine (`src/engine/wukong.js`, an external collaborator not
part of the analysed sources) is modelled as an opaque record of operations;
operations that can raise a JavaScript exception return `Except Unit`
(the payload of an exception is irrelevant to the control flow).

The schedulers are modelled as explicit state machines driven by an event
list: a `trigger` event is a call of `scheduleAnalyze`, a `timerFire` event is
the firing of the pending debounce timer, and a `runExec` event is the later
execution of the queued `run` closure (queued via `requestIdleCallback` /
`setTimeout(run, 0)`).  The ghost fields `runsInFlight` (queued-or-executing
`run` closures) and `runsStarted` (total committed analysis runs) are
instrumentation used only by the theorems; they do not influence behaviour.
-/

/-- A JavaScript string, as its list of UTF-16 code units. -/
abbrev JStr := List Nat

/-- The space code unit; the only whitespace occurring in book lines. -/
def wsCode : Nat := 32

/-- JS `String.prototype.trim` (whitespace restricted to the space code unit,
the only whitespace that occurs in the data this repository trims). -/
def jsTrim (s : JStr) : JStr :=
  ((s.dropWhile (· == wsCode)).reverse.dropWhile (· == wsCode)).reverse

/-- JS `s.trim().split(/\s+/)[0]` — the first whitespace-separated token of a
string (the empty string when there is none). -/
def firstTok (s : JStr) : JStr :=
  (jsTrim s).takeWhile (· != wsCode)

/-- The segment of `s` strictly before the first occurrence of `sep`
(the whole of `s` when `sep` does not occur): JS `s.split(sep)[0]`
for a non-empty `sep`. -/
def beforeFirst (sep : JStr) : JStr → JStr
  | [] => []
  | c :: rest =>
    if sep.isPrefixOf (c :: rest) then []
    else c :: beforeFirst sep rest

/-- The remainder of `s` after the first occurrence of `sep`, when `sep`
occurs (`none` otherwise).  `beforeFirst sep` of that remainder is
JS `s.split(sep)[1]` for a non-empty `sep`. -/
def afterFirst (sep : JStr) : JStr → Option JStr
  | [] => none
  | c :: rest =>
    if sep.isPrefixOf (c :: rest) then some ((c :: rest).drop sep.length)
    else afterFirst sep rest

/-- JS `s.includes(pat)`: `pat` occurs contiguously inside `s`. -/
def jsIncludes : JStr → JStr → Bool
  | [], pat => pat.isEmpty
  | c :: rest, pat => pat.isPrefixOf (c :: rest) || jsIncludes rest pat

/-- JS `Array.prototype.join(' ')` on a list of strings. -/
def joinSpace (l : List JStr) : JStr := List.intercalate [wsCode] l

/-- The engine colour code for BLACK (`engine.COLOR.BLACK`); RED is 0. -/
def BLACK : Nat := 1

/-- The external move engine (`src/engine/wukong.js`), an opaque collaborator.
Operations whose JavaScript counterparts can throw return `Except Unit`.
A move handle is an engine-native number; `0` is the "no move" sentinel. -/
structure Engine where
  /-- `engine.getSide()`: 0 = RED, 1 = BLACK. -/
  getSide : Nat
  /-- `engine.getMoves()`: the game's move history as coordinate tokens. -/
  getMoves : Except Unit (List JStr)
  /-- `engine.moveFromString(tok)`: decode a coordinate token to a move. -/
  moveFromString : JStr → Except Unit Nat
  /-- The `resetTimeControl`/`getTimeControl`/`setTimeControl` block that
  configures the wall-clock budget before a timed search. -/
  tcSetup : Except Unit Unit
  /-- `engine.search(depth)`: search and return a best move (0 for none). -/
  search : Nat → Except Unit Nat
  /-- `engine.generateLegalMoves()`: the `.move` fields of all legal moves. -/
  generateLegalMoves : Except Unit (List Nat)
  /-- `engine.getSourceSquare(move)`. -/
  getSourceSquare : Nat → Nat
  /-- `engine.getTargetSquare(move)`. -/
  getTargetSquare : Nat → Nat
  /-- `engine.squareToString(square)`: the board coordinate of a square
  (a two-character coordinate, or the string xx for an off-board square). -/
  squareToString : Nat → JStr

/-- coach.js `COACH_DEPTH_FALLBACK` (depth used by `timedSearch`). -/
def COACH_DEPTH_FALLBACK : Nat := 18

/-- coach.js `COACH_DEPTH_UI` (fixed-depth fallback of the fast-glance run). -/
def COACH_DEPTH_UI : Nat := 10

/-- coach.js `ucciFromMove(move)`: source and target coordinates joined. -/
def ucciFromMove (e : Engine) (move : Nat) : JStr :=
  e.squareToString (e.getSourceSquare move) ++ e.squareToString (e.getTargetSquare move)

/-- The per-line loop of `getCoachBookMove` (identical in coach.js and
part_001).  For each book line the JS code tests
`line.includes(currentLine) && line.split(currentLine)[0] === ''` and, on a
match, decodes `line.split(currentLine)[1].trim().split(/\s+/)[0]` inside a
`try` whose `catch` returns 0 from the whole function (it does not continue
with later lines). -/
def bookScan (e : Engine) (currentLine : JStr) : List JStr → Except Unit Nat
  | [] => .ok 0
  | line :: rest =>
    if jsIncludes line currentLine && (beforeFirst currentLine line).isEmpty then
      match afterFirst currentLine line with
      | none =>
        -- `line.split(currentLine)[1]` is `undefined`, so `.trim()` throws
        -- and the `catch` returns 0 (unreachable when the guard held).
        .ok 0
      | some r =>
        match e.moveFromString (firstTok (beforeFirst currentLine r)) with
        | .ok m => .ok m
        | .error _ => .ok 0
    else bookScan e currentLine rest

/-- coach.js / part_001 `getCoachBookMove()`.  The book lines come from the
`window.bots` profile (`getCoachBookLines`, whose internal `try`/`catch`
yields a plain list); exceptions from `getMoves` or from `moveFromString` in
the empty-history branch are not caught here and propagate. -/
def getCoachBookMove (e : Engine) (book : List JStr) : Except Unit Nat :=
  if book.isEmpty then .ok 0
  else
    match e.getMoves with
    | .error er => .error er
    | .ok moves =>
      if moves.isEmpty then
        e.moveFromString (firstTok (book.headD []))
      else
        bookScan e (joinSpace moves) book

/-- coach.js / part_001 / part_000 `timedSearch(depth, seconds)`: the
time-control configuration block sits inside a `try { } catch (_) { }`, so a
failure there is swallowed; `engine.search(depth)` is called outside the
`try` either way, and an exception it raises propagates to the caller. -/
def timedSearch (e : Engine) (depth : Nat) : Except Unit Nat :=
  match e.tcSetup with
  | .ok _ => e.search depth
  | .error _ => e.search depth

/-- coach.js `pickBestMoveStrong(depthUi)`: book, then timed search, then
fixed-depth search, then first legal move.  Only the book step has internal
exception handling; an exception from any search or from the legal-move
enumeration propagates out of this function. -/
def pickBestMoveStrong (e : Engine) (book : List JStr) (depthUi : Nat) : Except Unit Nat :=
  match getCoachBookMove e book with
  | .error er => .error er
  | .ok m =>
    if m ≠ 0 then .ok m
    else
      match timedSearch e COACH_DEPTH_FALLBACK with
      | .error er => .error er
      | .ok m =>
        if m ≠ 0 then .ok m
        else
          match e.search depthUi with
          | .error er => .error er
          | .ok m =>
            if m ≠ 0 then .ok m
            else
              match e.generateLegalMoves with
              | .error er => .error er
              | .ok moves => .ok (moves.headD 0)

/-- part_001 `COACH_DEPTH_TIMED`. -/
def COACH_DEPTH_TIMED : Nat := 128

/-- part_001 `COACH_DEPTH_UI`. -/
def ULTRA_DEPTH_UI : Nat := 22

/-- part_001 `pickBestMoveUltra()`: same shape as `pickBestMoveStrong`, with
the ultra depth configuration. -/
def pickBestMoveUltra (e : Engine) (book : List JStr) : Except Unit Nat :=
  match getCoachBookMove e book with
  | .error er => .error er
  | .ok m =>
    if m ≠ 0 then .ok m
    else
      match timedSearch e COACH_DEPTH_TIMED with
      | .error er => .error er
      | .ok m =>
        if m ≠ 0 then .ok m
        else
          match e.search ULTRA_DEPTH_UI with
          | .error er => .error er
          | .ok m =>
            if m ≠ 0 then .ok m
            else
              match e.generateLegalMoves with
              | .error er => .error er
              | .ok moves => .ok (moves.headD 0)

/-- Outcome of the fast-glance `run` closure before the boundary `catch`:
either the BLACK-to-move skip (which renders the empty hint and leaves
`lastBestMoveUcci` untouched) or a best-move coordinate pair (possibly empty
when no move was found). -/
inductive RunOut where
  | skipBlack
  | best (u : JStr)
deriving DecidableEq

/-- The body of coach.js `analyzeNow`'s `run` closure, up to the boundary
`try`/`catch`: with `COACH_ONLY_WHEN_RED_TO_MOVE = true` the run renders an
empty hint and returns when BLACK is to move; otherwise it resolves a best
move and turns it into a coordinate pair (empty for the 0 sentinel).  Score,
depth and principal-variation bookkeeping only feed cosmetic labels and are
omitted. -/
def runBody (e : Engine) (book : List JStr) : Except Unit RunOut :=
  if e.getSide = BLACK then .ok .skipBlack
  else
    match pickBestMoveStrong e book COACH_DEPTH_UI with
    | .error er => .error er
    | .ok bestMove => .ok (.best (if bestMove ≠ 0 then ucciFromMove e bestMove else []))

/-- The body of part_001 `analyzeNow`'s `run` closure up to the boundary
`try`/`catch`; its `COACH_ONLY_WHEN_RED_TO_MOVE` constant is `false`, so the
BLACK-to-move skip is dead code and both sides are analysed. -/
def runBodyUltra (e : Engine) (book : List JStr) : Except Unit RunOut :=
  if false = true && e.getSide = BLACK then .ok .skipBlack
  else
    match pickBestMoveUltra e book with
    | .error er => .error er
    | .ok bestMove => .ok (.best (if bestMove ≠ 0 then ucciFromMove e bestMove else []))

/-- part_000 `SEARCH_DEPTH`. -/
def PUZZLE_SEARCH_DEPTH : Nat := 18

/-- The body of part_000 `analyzeNow`'s `run` closure: a timed search, then
the first legal move, the whole computation inside one `try` whose `catch`
sets the best move to 0; the rendered pair is empty when no move was found. -/
def runPuzzle (e : Engine) : JStr :=
  let best : Nat :=
    match timedSearch e PUZZLE_SEARCH_DEPTH with
    | .error _ => 0
    | .ok b =>
      if b = 0 then
        match e.generateLegalMoves with
        | .error _ => 0
        | .ok moves => moves.headD 0
      else b
  if best ≠ 0 then ucciFromMove e best else []

/-!  Coordinate flipping (part_000 `flipSquare` / `flipUcci`).  `fileToIndex`
is `ch.charCodeAt(0) - 'a'.charCodeAt(0)` and is never NaN; `Number(rank)` is
NaN exactly when the rank character is not a digit (no other single
code unit occurs in rank position in this repository's data). -/

/-- part_000 `fileToIndex(ch)`. -/
def fileToIndex (c : Nat) : Int := (c : Int) - 97

/-- part_000 `flipSquare(square)`: point-reflect one two-character square
coordinate; inputs shorter than two characters or with a non-digit rank are
returned unchanged. -/
def flipSquare (s : JStr) : JStr :=
  match s with
  | c0 :: c1 :: _ =>
    if 48 ≤ c1 ∧ c1 ≤ 57 then
      let file := fileToIndex c0
      let rank : Int := (c1 : Int) - 48
      let ff := 8 - file
      let fr := 9 - rank
      [(97 + ff).toNat, (48 + fr).toNat]
    else s
  | _ => s

/-- part_000 `flipUcci(ucci)`: flip both squares of a coordinate pair;
inputs shorter than four characters are returned unchanged. -/
def flipUcci (u : JStr) : JStr :=
  if u.length < 4 then u
  else flipSquare (u.take 2) ++ flipSquare ((u.drop 2).take 2)

/-!  The coordinate-to-square map (coach.js / part_000 / part_001
`coordToSquare`, built once over the engine's 11 × 14 internal square range).
A JS object is modelled as an association list in insertion order with
last-write-wins lookup. -/

/-- The string xx, the engine's marker for an off-board square. -/
def xxStr : JStr := [120, 120]

/-- The JS truthiness-and-not-xx test `c && c !== 'xx'` on a coordinate. -/
def validCoord (c : JStr) : Bool := !c.isEmpty && c ≠ xxStr

/-- The `coordToSquare` build loop over squares `0 .. n-1`: each square with
a valid coordinate assigns `map[c] = sq` (a later assignment to the same key
overwrites an earlier one). -/
def buildCoordMapN (sts : Nat → JStr) : Nat → List (JStr × Nat)
  | 0 => []
  | n + 1 =>
    buildCoordMapN sts n ++ (if validCoord (sts n) then [(sts n, n)] else [])

/-- coach.js `coordToSquare`, parameterised by the engine's
`squareToString`. -/
def coordToSquare (sts : Nat → JStr) : List (JStr × Nat) :=
  buildCoordMapN sts (11 * 14)

/-- JS object property lookup on the association-list model: the most recent
assignment to the key wins (`undefined` when the key was never assigned). -/
def jsObjGet (m : List (JStr × Nat)) (k : JStr) : Option Nat :=
  (m.reverse.find? (fun p => p.1 == k)).map (·.2)

/-!  Scheduler state machines.  Events:
`trigger r now n` — the host lifecycle calls `scheduleAnalyze(r)` at time
`now` with current move count `n` (for the ultra profile a position
fingerprint `key` instead); `timerFire now` — the pending debounce timer
fires; `runExec e book` — the queued `run` closure executes against the
engine state `e`. -/

/-- A scheduling trigger reason, as passed to `scheduleAnalyze`. -/
inductive Reason where
  | move | undo | newGame | resize | init | force
deriving DecidableEq

/-- Observable renderer actions emitted by a scheduler step. -/
inductive Act where
  /-- `render(...)` with the given coordinate pair (empty = no hint). -/
  | render (u : JStr)
  /-- The boundary `catch` writing the placeholder label. -/
  | placeholder
  /-- part_000's "analysing" label written before queueing the run. -/
  | analyzing
deriving DecidableEq

namespace Coach

/-- coach.js `MIN_INTERVAL_MS`. -/
def MIN_INTERVAL_MS : Nat := 350

/-- The mutable state of the fast-glance coach (coach.js module scope),
plus the two instrumentation counters. -/
structure St where
  enabled : Bool
  busy : Bool
  lastMoveCount : Int
  lastBestMoveUcci : JStr
  lastAnalyzeTs : Nat
  pendingTimer : Option Reason
  runsInFlight : Nat
  runsStarted : Nat
deriving DecidableEq

/-- The initial coach.js state (`enabled = true`, `busy = false`,
`lastMoveCount = -1`, empty last suggestion, timestamp 0, no timer). -/
def init : St :=
  { enabled := true, busy := false, lastMoveCount := -1, lastBestMoveUcci := [],
    lastAnalyzeTs := 0, pendingTimer := none, runsInFlight := 0, runsStarted := 0 }

/-- coach.js `analyzeNow(reason)`: bail out when disabled or busy (the
single-flight drop); otherwise set `busy`, record the timestamp and queue the
`run` closure (via `requestIdleCallback` / `setTimeout`). -/
def analyzeNow (s : St) (_r : Reason) (now : Nat) : St × List Act :=
  if s.enabled = false then (s, [])
  else if s.busy then (s, [])
  else
    ({ s with
        busy := true, lastAnalyzeTs := now,
        runsInFlight := s.runsInFlight + 1, runsStarted := s.runsStarted + 1 }, [])

/-- coach.js `scheduleAnalyze(reason)`: suppress an unchanged move count
(non-force), record the new count, cancel any pending timer, then either
defer `analyzeNow` behind a timer for the remaining throttle interval or call
it at once. -/
def scheduleAnalyze (s : St) (r : Reason) (now : Nat) (n : Int) : St × List Act :=
  if n = s.lastMoveCount ∧ r ≠ .force then (s, [])
  else
    let s1 := { s with lastMoveCount := n }
    let wait : Nat := MIN_INTERVAL_MS - (now - s1.lastAnalyzeTs)
    let s2 := { s1 with pendingTimer := none }
    if 0 < wait then ({ s2 with pendingTimer := some r }, [])
    else analyzeNow s2 r now

/-- The pending `setTimeout(() => analyzeNow(reason), wait)` fires. -/
def timerFire (s : St) (now : Nat) : St × List Act :=
  match s.pendingTimer with
  | none => (s, [])
  | some r => analyzeNow { s with pendingTimer := none } r now

/-- The queued `run` closure executes: on success store the (possibly empty)
suggestion and render it (the BLACK skip renders the empty hint without
storing); the boundary `catch` writes the placeholder; the `finally` releases
`busy` on every path. -/
def runExec (s : St) (e : Engine) (book : List JStr) : St × List Act :=
  if s.runsInFlight = 0 then (s, [])
  else
    let s1 := { s with runsInFlight := s.runsInFlight - 1, busy := false }
    match runBody e book with
    | .ok .skipBlack => (s1, [Act.render []])
    | .ok (.best u) => ({ s1 with lastBestMoveUcci := u }, [Act.render u])
    | .error _ => (s1, [Act.placeholder])

/-- An event consumed by the fast-glance scheduler. -/
inductive Ev where
  | trigger (r : Reason) (now : Nat) (n : Int)
  | timerFire (now : Nat)
  | runExec (e : Engine) (book : List JStr)

/-- One scheduler step. -/
def step (s : St) : Ev → St × List Act
  | .trigger r now n => scheduleAnalyze s r now n
  | .timerFire now => timerFire s now
  | .runExec e book => runExec s e book

/-- Run the scheduler over an event list, keeping only the state. -/
def exec (s : St) : List Ev → St
  | [] => s
  | ev :: evs => exec (step s ev).1 evs

end Coach

namespace Ultra

/-- part_001 `MIN_INTERVAL_MS`. -/
def MIN_INTERVAL_MS : Nat := 1800

/-- The mutable state of the ultra coach (part_001 module scope), plus the
two instrumentation counters.  The position fingerprint is the string
produced by `getPositionKey()` (a FEN if available, a move-count proxy
otherwise); it is supplied by the environment at each `timerFire`. -/
structure St where
  enabled : Bool
  busy : Bool
  lastAnalyzeTs : Nat
  pendingTimer : Option Reason
  lastBestMoveUcci : JStr
  lastPositionKey : JStr
  runsInFlight : Nat
  runsStarted : Nat
deriving DecidableEq

/-- The initial part_001 state. -/
def init : St :=
  { enabled := true, busy := false, lastAnalyzeTs := 0, pendingTimer := none,
    lastBestMoveUcci := [], lastPositionKey := [], runsInFlight := 0, runsStarted := 0 }

/-- part_001 `analyzeNow(reason)`: bail out when disabled or busy; re-render
the last suggestion and stop on an unchanged (truthy) fingerprint or inside
the cooldown window, unless forced; otherwise commit — set `busy`, record
timestamp and fingerprint, and queue the `run` closure.
(`render(lastBestMoveUcci || '')` renders exactly `lastBestMoveUcci`, since
the falsy case is the empty string itself.) -/
def analyzeNow (s : St) (r : Reason) (now : Nat) (key : JStr) : St × List Act :=
  if s.enabled = false ∨ s.busy = true then (s, [])
  else if key ≠ [] ∧ key = s.lastPositionKey ∧ r ≠ .force then
    (s, [Act.render s.lastBestMoveUcci])
  else if now - s.lastAnalyzeTs < MIN_INTERVAL_MS ∧ r ≠ .force then
    (s, [Act.render s.lastBestMoveUcci])
  else
    ({ s with
        busy := true, lastAnalyzeTs := now, lastPositionKey := key,
        runsInFlight := s.runsInFlight + 1, runsStarted := s.runsStarted + 1 }, [])

/-- part_001 `scheduleAnalyze(reason)`: cancel any pending timer and arm a
fresh debounce timer for the trigger (no other checks happen here). -/
def scheduleAnalyze (s : St) (r : Reason) : St × List Act :=
  ({ s with pendingTimer := some r }, [])

/-- The pending debounce timer fires, calling `analyzeNow(reason)` against
the current time and position fingerprint. -/
def timerFire (s : St) (now : Nat) (key : JStr) : St × List Act :=
  match s.pendingTimer with
  | none => (s, [])
  | some r => analyzeNow { s with pendingTimer := none } r now key

/-- The queued part_001 `run` closure executes: on success store the
(possibly empty) suggestion and render it; the boundary `catch` writes the
placeholder; the `finally` releases `busy` on every path. -/
def runExec (s : St) (e : Engine) (book : List JStr) : St × List Act :=
  if s.runsInFlight = 0 then (s, [])
  else
    let s1 := { s with runsInFlight := s.runsInFlight - 1, busy := false }
    match runBodyUltra e book with
    | .ok .skipBlack => (s1, [Act.render []])
    | .ok (.best u) => ({ s1 with lastBestMoveUcci := u }, [Act.render u])
    | .error _ => (s1, [Act.placeholder])

/-- An event consumed by the ultra scheduler. -/
inductive Ev where
  | trigger (r : Reason)
  | timerFire (now : Nat) (key : JStr)
  | runExec (e : Engine) (book : List JStr)

/-- One scheduler step. -/
def step (s : St) : Ev → St × List Act
  | .trigger r => scheduleAnalyze s r
  | .timerFire now key => timerFire s now key
  | .runExec e book => runExec s e book

/-- Run the scheduler over an event list, keeping only the state. -/
def exec (s : St) : List Ev → St
  | [] => s
  | ev :: evs => exec (step s ev).1 evs

end Ultra

namespace Puzzle

/-- part_000 `MIN_INTERVAL_MS`. -/
def MIN_INTERVAL_MS : Nat := 220

/-- The mutable state of the puzzle coach (part_000 module scope), plus the
two instrumentation counters.  part_000 has no `busy` single-flight guard. -/
structure St where
  lastAnalyzeTs : Nat
  lastMoveCount : Int
  pendingTimer : Option Reason
  lastBestUcci : JStr
  runsInFlight : Nat
  runsStarted : Nat
deriving DecidableEq

/-- The initial part_000 state. -/
def init : St :=
  { lastAnalyzeTs := 0, lastMoveCount := -1, pendingTimer := none,
    lastBestUcci := [], runsInFlight := 0, runsStarted := 0 }

/-- part_000 `analyzeNow(reason)`: rate-limit (bypassed by `force`), record
the timestamp, write the "analysing" label and queue the `run` closure.
Its `COACH_ONLY_WHEN_RED_TO_MOVE` constant is `false`, so the BLACK-to-move
skip block is not entered.  There is no `busy` guard. -/
def analyzeNow (s : St) (r : Reason) (now : Nat) : St × List Act :=
  if now - s.lastAnalyzeTs < MIN_INTERVAL_MS ∧ r ≠ .force then (s, [])
  else
    ({ s with
        lastAnalyzeTs := now,
        runsInFlight := s.runsInFlight + 1, runsStarted := s.runsStarted + 1 },
     [Act.analyzing])

/-- part_000 `scheduleAnalyze(reason)`: suppress an unchanged move count
(non-force), record the new count, cancel any pending timer and always arm a
timer for `analyzeNow` (with the remaining throttle interval as delay). -/
def scheduleAnalyze (s : St) (r : Reason) (n : Int) : St × List Act :=
  if n = s.lastMoveCount ∧ r ≠ .force then (s, [])
  else ({ s with lastMoveCount := n, pendingTimer := some r }, [])

/-- The pending timer fires, calling `analyzeNow(reason)`. -/
def timerFire (s : St) (now : Nat) : St × List Act :=
  match s.pendingTimer with
  | none => (s, [])
  | some r => analyzeNow { s with pendingTimer := none } r now

/-- The queued part_000 `run` closure executes: both outcomes store the
resulting pair (empty on failure) and render it. -/
def runExec (s : St) (e : Engine) : St × List Act :=
  if s.runsInFlight = 0 then (s, [])
  else
    let u := runPuzzle e
    ({ s with runsInFlight := s.runsInFlight - 1, lastBestUcci := u }, [Act.render u])

/-- An event consumed by the puzzle scheduler. -/
inductive Ev where
  | trigger (r : Reason) (n : Int)
  | timerFire (now : Nat)
  | runExec (e : Engine)

/-- One scheduler step. -/
def step (s : St) : Ev → St × List Act
  | .trigger r n => scheduleAnalyze s r n
  | .timerFire now => timerFire s now
  | .runExec e => runExec s e

/-- Run the scheduler over an event list, keeping only the state. -/
def exec (s : St) : List Ev → St
  | [] => s
  | ev :: evs => exec (step s ev).1 evs

end Puzzle

deriving instance DecidableEq for Except

/-!  Bridge lemmas between the Boolean string operations and their
propositional counterparts. -/

/-- Boolean prefix test agrees with the prefix relation. -/
theorem isPrefixOf_eq_true : ∀ (p s : JStr), p.isPrefixOf s = true ↔ p <+: s
  | [], s => by simp [List.isPrefixOf]
  | a :: as, [] => by simp [List.isPrefixOf]
  | a :: as, b :: bs => by
    simp [List.isPrefixOf, isPrefixOf_eq_true as bs, List.cons_prefix_cons]

/-- The book-line guard `line.includes(cur) && line.split(cur)[0] === ''`
holds exactly when `cur` is a prefix of `line` (for any non-empty `cur`). -/
theorem bookGuard_iff (cur line : JStr) (hc : cur ≠ []) :
    (jsIncludes line cur && (beforeFirst cur line).isEmpty) = true ↔ cur <+: line := by
  cases line with
  | nil =>
    have h1 : jsIncludes [] cur = false := by
      cases cur with
      | nil => exact absurd rfl hc
      | cons a l => rfl
    simp [h1, List.prefix_nil, hc]
  | cons c rest =>
    by_cases hp : cur.isPrefixOf (c :: rest)
    · simp [jsIncludes, beforeFirst, hp, (isPrefixOf_eq_true _ _).mp hp]
    · have hnp : ¬ cur <+: c :: rest := fun h => hp ((isPrefixOf_eq_true _ _).mpr h)
      simp [jsIncludes, beforeFirst, hp, hnp, List.isEmpty_iff]

/-- `afterFirst` at an occurrence found right at the start of the string. -/
theorem afterFirst_at_start (cur r : JStr) (hc : cur ≠ []) :
    afterFirst cur (cur ++ r) = some r := by
  match cur with
  | c :: ct =>
    have hp : (c :: ct).isPrefixOf ((c :: ct) ++ r) = true :=
      (isPrefixOf_eq_true _ _).mpr ⟨r, rfl⟩
    simp only [List.cons_append, afterFirst, hp, if_pos]
    simp

/-- When `cur` does not occur in `s`, `beforeFirst` returns all of `s`. -/
theorem beforeFirst_no_occ (cur : JStr) :
    ∀ (s : JStr), ¬ (cur <:+: s) → beforeFirst cur s = s := by
  intro s
  induction s with
  | nil => intro _; rfl
  | cons c rest ih =>
    intro h
    have hp : ¬ cur.isPrefixOf (c :: rest) = true := by
      intro hb
      exact h ((isPrefixOf_eq_true _ _).mp hb).isInfix
    rw [beforeFirst, if_neg hp]
    have : ¬ (cur <:+: rest) := fun hi => h (List.infix_cons_iff.mpr (Or.inr hi))
    rw [ih this]

/-- Trimming trailing whitespace does not change the leading token. -/
theorem takeWhile_trimRight (x : JStr) :
    ((x.reverse.dropWhile (· == wsCode)).reverse).takeWhile (· != wsCode)
      = x.takeWhile (· != wsCode) := by
  induction x using List.reverseRecOn with
  | nil => rfl
  | append_singleton y c ih =>
    by_cases hc : c = wsCode
    · subst hc
      rw [List.reverse_append]
      simp only [List.reverse_singleton, List.singleton_append, List.dropWhile_cons,
        beq_self_eq_true, if_true, ih]
      rw [List.takeWhile_append]
      split
      · next hall =>
        have h2 : y.takeWhile (· != wsCode) = y :=
          (List.takeWhile_prefix _).eq_of_length hall
        simp [h2]
      · rfl
    · rw [List.reverse_append]
      simp only [List.reverse_singleton, List.singleton_append, List.dropWhile_cons]
      have hb : (c == wsCode) = false := by simpa using hc
      simp [hb]

/-- `firstTok` only depends on the string after its leading whitespace. -/
theorem firstTok_eq_dropLeft (s : JStr) :
    firstTok s = (s.dropWhile (· == wsCode)).takeWhile (· != wsCode) := by
  unfold firstTok jsTrim
  exact takeWhile_trimRight _

/-- Taking the non-whitespace head of a token followed by nothing or by a
space returns exactly the token. -/
theorem takeWhile_token (t x : JStr) (htw : ∀ c ∈ t, c ≠ wsCode)
    (hx : x = [] ∨ ∃ z, x = wsCode :: z) :
    (t ++ x).takeWhile (· != wsCode) = t := by
  induction t with
  | nil =>
    rcases hx with h | ⟨z, h⟩ <;> subst h
    · rfl
    · simp [List.takeWhile_cons]
  | cons c t' ih =>
    have hc : (c != wsCode) = true := by
      simpa using htw c (List.mem_cons_self c t')
    simp only [List.cons_append, List.takeWhile_cons, hc, if_true]
    rw [ih (fun d hd => htw d (List.mem_cons_of_mem c hd))]

/-- A well-formed coordinate token: four code units, none of them a space. -/
def wfTok (t : JStr) : Prop := t.length = 4 ∧ ∀ c ∈ t, c ≠ wsCode

instance (t : JStr) : Decidable (wfTok t) := by
  unfold wfTok
  infer_instance

/-- `joinSpace` of a single string. -/
theorem joinSpace_one (x : JStr) : joinSpace [x] = x := by
  simp [joinSpace, List.intercalate]

/-- `joinSpace` on at least two strings exposes the first separator. -/
theorem joinSpace_cons₂ (t u : JStr) (more : List JStr) :
    joinSpace (t :: u :: more) = t ++ wsCode :: joinSpace (u :: more) := by
  simp [joinSpace, List.intercalate, List.intersperse]

/-- Splitting a `joinSpace` across a non-empty first block. -/
theorem joinSpace_split (ss : List JStr) (hss : ss ≠ []) (u : JStr) (more : List JStr) :
    joinSpace (ss ++ u :: more) = joinSpace ss ++ wsCode :: joinSpace (u :: more) := by
  induction ss with
  | nil => exact absurd rfl hss
  | cons x ss' ih =>
    cases ss' with
    | nil =>
      rw [joinSpace_one]
      exact joinSpace_cons₂ x u more
    | cons y ss'' =>
      have h1 : (x :: y :: ss'') ++ u :: more = x :: (y :: (ss'' ++ u :: more)) := rfl
      rw [h1, joinSpace_cons₂]
      have h2 : y :: (ss'' ++ u :: more) = (y :: ss'') ++ u :: more := rfl
      rw [h2, ih (by simp), joinSpace_cons₂ x y ss'']
      simp

/-- The first token of a separator followed by joined tokens. -/
theorem firstTok_ws_join (t : JStr) (more : List JStr)
    (ht : t ≠ []) (htw : ∀ c ∈ t, c ≠ wsCode) :
    firstTok (wsCode :: joinSpace (t :: more)) = t := by
  rw [firstTok_eq_dropLeft]
  have hshape : joinSpace (t :: more) = t ++ [] ∨
      ∃ z, joinSpace (t :: more) = t ++ (wsCode :: z) := by
    cases more with
    | nil => left; simp [joinSpace, List.intercalate]
    | cons u more' => right; exact ⟨joinSpace (u :: more'), joinSpace_cons₂ t u more'⟩
  obtain ⟨c0, t', rfl⟩ : ∃ c0 t', t = c0 :: t' := by
    cases t with
    | nil => exact absurd rfl ht
    | cons a b => exact ⟨a, b, rfl⟩
  have hc0 : (c0 == wsCode) = false := by
    simpa using htw c0 (List.mem_cons_self c0 t')
  have hdrop : (wsCode :: joinSpace ((c0 :: t') :: more)).dropWhile (· == wsCode)
      = joinSpace ((c0 :: t') :: more) := by
    rcases hshape with h | ⟨z, h⟩ <;>
      simp [List.dropWhile_cons, h, hc0]
  rw [hdrop]
  rcases hshape with h | ⟨z, h⟩
  · rw [h]
    exact takeWhile_token _ _ htw (Or.inl rfl)
  · rw [h]
    exact takeWhile_token _ _ htw (Or.inr ⟨z, rfl⟩)

/-- The first token of joined tokens (no leading separator). -/
theorem firstTok_join (t : JStr) (more : List JStr)
    (ht : t ≠ []) (htw : ∀ c ∈ t, c ≠ wsCode) :
    firstTok (joinSpace (t :: more)) = t := by
  rw [firstTok_eq_dropLeft]
  obtain ⟨c0, t', rfl⟩ : ∃ c0 t', t = c0 :: t' := by
    cases t with
    | nil => exact absurd rfl ht
    | cons a b => exact ⟨a, b, rfl⟩
  have hc0 : (c0 == wsCode) = false := by
    simpa using htw c0 (List.mem_cons_self c0 t')
  cases more with
  | nil =>
    rw [joinSpace_one]
    have hdrop : (c0 :: t').dropWhile (· == wsCode) = c0 :: t' := by
      simp [List.dropWhile_cons, hc0]
    rw [hdrop]
    exact (List.takeWhile_eq_self_iff ..).mpr (by
      intro x hx
      simpa using htw x hx)
  | cons u more' =>
    rw [joinSpace_cons₂]
    have hdrop : ((c0 :: t') ++ wsCode :: joinSpace (u :: more')).dropWhile (· == wsCode)
        = (c0 :: t') ++ wsCode :: joinSpace (u :: more') := by
      simp [List.dropWhile_cons, hc0]
    rw [hdrop]
    exact takeWhile_token _ _ htw (Or.inr ⟨_, rfl⟩)

/-- For lists of well-formed (four-code-unit, space-free) tokens, a prefix
relation between the space-joined strings forces a prefix relation between
the token lists themselves. -/
theorem join_prefix_toks : ∀ (ss ts : List JStr), (∀ t ∈ ss, wfTok t) →
    (∀ t ∈ ts, wfTok t) → joinSpace ss <+: joinSpace ts → ss <+: ts := by
  intro ss
  induction ss with
  | nil => intro ts _ _ _; exact List.nil_prefix
  | cons s ss' ih =>
    intro ts hwss hwts h
    cases ts with
    | nil =>
      exfalso
      have h0 : joinSpace [] = ([] : JStr) := rfl
      rw [h0, List.prefix_nil] at h
      have hs4 : s.length = 4 := (hwss s (List.mem_cons_self s ss')).1
      cases ss' with
      | nil => rw [joinSpace_one] at h; rw [h] at hs4; simp at hs4
      | cons u more =>
        rw [joinSpace_cons₂] at h
        have := congrArg List.length h
        simp [hs4] at this
    | cons t ts' =>
      have hs4 : s.length = 4 := (hwss s (List.mem_cons_self s ss')).1
      have ht4 : t.length = 4 := (hwts t (List.mem_cons_self t ts')).1
      -- decompose both joins into first token ++ tail
      obtain ⟨a, ha⟩ : ∃ a, joinSpace (s :: ss') = s ++ a ∧
          (ss' = [] ∧ a = [] ∨ ss' ≠ [] ∧ a = wsCode :: joinSpace ss') := by
        cases ss' with
        | nil => exact ⟨[], by simp [joinSpace_one], Or.inl ⟨rfl, rfl⟩⟩
        | cons u m => exact ⟨wsCode :: joinSpace (u :: m), joinSpace_cons₂ s u m,
            Or.inr ⟨by simp, rfl⟩⟩
      obtain ⟨b, hb⟩ : ∃ b, joinSpace (t :: ts') = t ++ b ∧
          (ts' = [] ∧ b = [] ∨ ts' ≠ [] ∧ b = wsCode :: joinSpace ts') := by
        cases ts' with
        | nil => exact ⟨[], by simp [joinSpace_one], Or.inl ⟨rfl, rfl⟩⟩
        | cons u m => exact ⟨wsCode :: joinSpace (u :: m), joinSpace_cons₂ t u m,
            Or.inr ⟨by simp, rfl⟩⟩
      obtain ⟨w, hw⟩ := h
      rw [ha.1, hb.1] at hw
      -- the first tokens agree
      have hst : s = t := by
        have h4 : List.take 4 ((s ++ a) ++ w) = List.take 4 (t ++ b) := by rw [hw]
        rw [List.append_assoc] at h4
        rw [← hs4] at h4
        rw [List.take_left] at h4
        rw [hs4, ← ht4, List.take_left] at h4
        exact h4
      subst hst
      -- cancel the first token
      have hab : a ++ w = b := by
        rw [List.append_assoc] at hw
        exact List.append_cancel_left hw
      rcases ha.2 with ⟨hss0, ha0⟩ | ⟨hss1, ha1⟩
      · subst hss0
        exact List.cons_prefix_cons.mpr ⟨rfl, List.nil_prefix⟩
      · rcases hb.2 with ⟨hts0, hb0⟩ | ⟨hts1, hb1⟩
        · exfalso
          subst hb0
          rw [ha1] at hab
          simp at hab
        · rw [ha1, hb1] at hab
          rw [List.cons_append] at hab
          have htail : joinSpace ss' ++ w = joinSpace ts' := by
            injection hab
          have hpre : joinSpace ss' <+: joinSpace ts' := ⟨w, htail⟩
          have := ih ts' (fun x hx => hwss x (List.mem_cons_of_mem s hx))
            (fun x hx => hwts x (List.mem_cons_of_mem s hx)) hpre
          exact List.cons_prefix_cons.mpr ⟨rfl, this⟩

/-- A non-empty list of well-formed tokens joins to a non-empty string. -/
theorem joinSpace_ne_nil (ss : List JStr) (hss : ss ≠ []) (hw : ∀ t ∈ ss, wfTok t) :
    joinSpace ss ≠ [] := by
  cases ss with
  | nil => exact absurd rfl hss
  | cons s rest =>
    have hs4 : s.length = 4 := (hw s (List.mem_cons_self s rest)).1
    cases rest with
    | nil =>
      rw [joinSpace_one]
      intro h
      rw [h] at hs4
      simp at hs4
    | cons u m =>
      rw [joinSpace_cons₂]
      intro h
      have := congrArg List.length h
      simp [hs4] at this

/-- The first book line whose token sequence properly extends the history
token sequence is the line the scan settles on, and the decoded token is the
one right after the history prefix — provided the lines before it do not have
the history tokens as a prefix, all tokens are well-formed, and the joined
history does not reoccur inside the matched line's remainder. -/
theorem bookScan_firstMatch (e : Engine) (ss : List JStr) (hss : ss ≠ [])
    (hwss : ∀ t ∈ ss, wfTok t) :
    ∀ (pre : List (List JStr)) (l0 : List JStr) (post : List (List JStr))
      (u : JStr) (more : List JStr),
      (∀ l ∈ pre, ∀ t ∈ l, wfTok t) →
      (∀ l ∈ pre, ¬ ss <+: l) →
      l0 = ss ++ u :: more →
      (∀ t ∈ l0, wfTok t) →
      ¬ (joinSpace ss <:+: (wsCode :: joinSpace (u :: more))) →
      bookScan e (joinSpace ss) ((pre ++ l0 :: post).map joinSpace) =
        (match e.moveFromString u with | .ok m => .ok m | .error _ => .ok 0) := by
  have hcur : joinSpace ss ≠ [] := joinSpace_ne_nil ss hss hwss
  intro pre
  induction pre with
  | nil =>
    intro l0 post u more _ _ hl0 hwl0 hocc
    subst hl0
    have hsplit := joinSpace_split ss hss u more
    simp only [List.nil_append, List.map_cons]
    rw [hsplit]
    simp only [bookScan]
    have hguard := (bookGuard_iff (joinSpace ss)
      (joinSpace ss ++ wsCode :: joinSpace (u :: more)) hcur).mpr
      ⟨wsCode :: joinSpace (u :: more), rfl⟩
    rw [hguard]
    simp only [if_true]
    rw [afterFirst_at_start _ _ hcur]
    dsimp only
    rw [beforeFirst_no_occ _ _ hocc]
    have hu : wfTok u := hwl0 u (by simp)
    have hu0 : u ≠ [] := by
      intro h
      have := hu.1
      rw [h] at this
      simp at this
    rw [firstTok_ws_join u more hu0 hu.2]
  | cons p pre' ih =>
    intro l0 post u more hwpre hnp hl0 hwl0 hocc
    have hnpre : ¬ ss <+: p := hnp p (List.mem_cons_self p pre')
    have hjoin : ¬ joinSpace ss <+: joinSpace p := fun hj =>
      hnpre (join_prefix_toks ss p hwss (hwpre p (List.mem_cons_self p pre')) hj)
    simp only [List.cons_append, List.map_cons]
    simp only [bookScan]
    have hguard : (jsIncludes (joinSpace p) (joinSpace ss) &&
        (beforeFirst (joinSpace ss) (joinSpace p)).isEmpty) = false := by
      cases hEq : (jsIncludes (joinSpace p) (joinSpace ss) &&
          (beforeFirst (joinSpace ss) (joinSpace p)).isEmpty) with
      | false => rfl
      | true => exact absurd ((bookGuard_iff _ _ hcur).mp hEq) hjoin
    rw [hguard]
    simp only [Bool.false_eq_true, if_false]
    exact ih l0 post u more (fun l hl => hwpre l (List.mem_cons_of_mem p hl))
      (fun l hl => hnp l (List.mem_cons_of_mem p hl)) hl0 hwl0 hocc

/-- The single-flight invariant of the fast-glance scheduler: never more
than one queued-or-running `run` closure, and `busy` tracks it exactly. -/
def CoachInv (s : Coach.St) : Prop :=
  s.runsInFlight ≤ 1 ∧ (s.busy = true ↔ s.runsInFlight = 1)

/-- `analyzeNow` preserves the fast-glance single-flight invariant. -/
theorem coachInv_analyzeNow (s : Coach.St) (r : Reason) (now : Nat)
    (h : CoachInv s) : CoachInv (Coach.analyzeNow s r now).1 := by
  unfold Coach.analyzeNow
  split
  · exact h
  · split
    · exact h
    · next hb =>
      have h0 : s.runsInFlight = 0 := by
        rcases h with ⟨h1, h2⟩
        by_cases hx : s.runsInFlight = 1
        · exact absurd (h2.mpr hx) hb
        · omega
      exact ⟨by simp [h0], by simp [h0]⟩

/-- Every step of the fast-glance scheduler preserves the invariant. -/
theorem coachInv_step (s : Coach.St) (ev : Coach.Ev) (h : CoachInv s) :
    CoachInv (Coach.step s ev).1 := by
  cases ev with
  | trigger r now n =>
    simp only [Coach.step, Coach.scheduleAnalyze]
    split
    · exact h
    · split
      · exact h
      · exact coachInv_analyzeNow _ r now h
  | timerFire now =>
    simp only [Coach.step, Coach.timerFire]
    split
    · exact h
    · exact coachInv_analyzeNow _ _ now h
  | runExec e book =>
    simp only [Coach.step, Coach.runExec]
    split
    · exact h
    · next hnz =>
      have h1 : s.runsInFlight = 1 := by
        rcases h with ⟨ha, _⟩
        omega
      split
      · exact ⟨by simp [h1], by simp [h1]⟩
      · exact ⟨by simp [h1], by simp [h1]⟩
      · exact ⟨by simp [h1], by simp [h1]⟩

/-- The invariant holds along every execution of the fast-glance scheduler. -/
theorem coachInv_exec (s : Coach.St) (evs : List Coach.Ev) (h : CoachInv s) :
    CoachInv (Coach.exec s evs) := by
  induction evs generalizing s with
  | nil => exact h
  | cons ev evs ih => exact ih _ (coachInv_step s ev h)

/-- The initial fast-glance state satisfies the invariant. -/
theorem coachInv_init : CoachInv Coach.init := by
  exact ⟨by simp [Coach.init], by simp [Coach.init]⟩

/-- The single-flight invariant of the ultra scheduler. -/
def UltraInv (s : Ultra.St) : Prop :=
  s.runsInFlight ≤ 1 ∧ (s.busy = true ↔ s.runsInFlight = 1)

/-- `analyzeNow` preserves the ultra single-flight invariant. -/
theorem ultraInv_analyzeNow (s : Ultra.St) (r : Reason) (now : Nat) (key : JStr)
    (h : UltraInv s) : UltraInv (Ultra.analyzeNow s r now key).1 := by
  unfold Ultra.analyzeNow
  split
  · exact h
  · next hb =>
    have hbf : s.busy = false := by
      cases h1 : s.busy with
      | false => rfl
      | true => exact absurd (Or.inr h1) hb
    have h0 : s.runsInFlight = 0 := by
      rcases h with ⟨h1, h2⟩
      by_cases hx : s.runsInFlight = 1
      · rw [h2.mpr hx] at hbf; cases hbf
      · omega
    split
    · exact h
    · split
      · exact h
      · exact ⟨by simp [h0], by simp [h0]⟩

/-- Every step of the ultra scheduler preserves the invariant. -/
theorem ultraInv_step (s : Ultra.St) (ev : Ultra.Ev) (h : UltraInv s) :
    UltraInv (Ultra.step s ev).1 := by
  cases ev with
  | trigger r =>
    exact h
  | timerFire now key =>
    simp only [Ultra.step, Ultra.timerFire]
    split
    · exact h
    · exact ultraInv_analyzeNow _ _ now key h
  | runExec e book =>
    simp only [Ultra.step, Ultra.runExec]
    split
    · exact h
    · next hnz =>
      have h1 : s.runsInFlight = 1 := by
        rcases h with ⟨ha, _⟩
        omega
      split
      · exact ⟨by simp [h1], by simp [h1]⟩
      · exact ⟨by simp [h1], by simp [h1]⟩
      · exact ⟨by simp [h1], by simp [h1]⟩

/-- The invariant holds along every execution of the ultra scheduler. -/
theorem ultraInv_exec (s : Ultra.St) (evs : List Ultra.Ev) (h : UltraInv s) :
    UltraInv (Ultra.exec s evs) := by
  induction evs generalizing s with
  | nil => exact h
  | cons ev evs ih => exact ih _ (ultraInv_step s ev h)

/-- The initial ultra state satisfies the invariant. -/
theorem ultraInv_init : UltraInv Ultra.init := by
  exact ⟨by simp [Ultra.init], by simp [Ultra.init]⟩

/-- Fast-glance events that leave the recorded position untouched: non-force
triggers carrying the same move count, timer firings, run completions. -/
def Coach.SameCountEv (n : Int) : Coach.Ev → Prop
  | .trigger r _ m => m = n ∧ r ≠ .force
  | .timerFire _ => True
  | .runExec _ _ => True

/-- One step over a same-count event preserves the recorded count, the
absence of a pending timer, and the number of started runs. -/
theorem coach_suppressed_step (s : Coach.St) (n : Int) (ev : Coach.Ev)
    (h1 : s.lastMoveCount = n) (h2 : s.pendingTimer = none)
    (hev : Coach.SameCountEv n ev) :
    (Coach.step s ev).1.lastMoveCount = n ∧ (Coach.step s ev).1.pendingTimer = none ∧
      (Coach.step s ev).1.runsStarted = s.runsStarted := by
  cases ev with
  | trigger r now m =>
    obtain ⟨hm, hr⟩ := hev
    simp only [Coach.step, Coach.scheduleAnalyze]
    rw [if_pos ⟨by omega, hr⟩]
    exact ⟨h1, h2, rfl⟩
  | timerFire now =>
    simp only [Coach.step, Coach.timerFire, h2]
    refine ⟨h1, ?_, ?_⟩ <;> trivial
  | runExec e book =>
    simp only [Coach.step, Coach.runExec]
    split
    · exact ⟨h1, h2, rfl⟩
    · split
      · exact ⟨h1, h2, rfl⟩
      · exact ⟨h1, h2, rfl⟩
      · exact ⟨h1, h2, rfl⟩

/-- Over any sequence of same-count events no further run is ever started. -/
theorem coach_suppressed_exec (s : Coach.St) (n : Int) (evs : List Coach.Ev)
    (h1 : s.lastMoveCount = n) (h2 : s.pendingTimer = none)
    (hevs : ∀ ev ∈ evs, Coach.SameCountEv n ev) :
    (Coach.exec s evs).runsStarted = s.runsStarted := by
  induction evs generalizing s with
  | nil => rfl
  | cons ev evs ih =>
    obtain ⟨k1, k2, k3⟩ := coach_suppressed_step s n ev h1 h2
      (hevs ev (List.mem_cons_self ev evs))
    calc (Coach.exec (Coach.step s ev).1 evs).runsStarted
        = (Coach.step s ev).1.runsStarted :=
          ih (Coach.step s ev).1 k1 k2 (fun x hx => hevs x (List.mem_cons_of_mem ev hx))
      _ = s.runsStarted := k3

/-- JS-object lookup after appending one entry: the new entry wins on its
own key, everything else falls back to the previous map. -/
theorem jsObjGet_append_one (m : List (JStr × Nat)) (ent : JStr × Nat) (k : JStr) :
    jsObjGet (m ++ [ent]) k = if ent.1 = k then some ent.2 else jsObjGet m k := by
  unfold jsObjGet
  rw [List.reverse_append]
  simp only [List.reverse_singleton, List.singleton_append, List.find?_cons]
  by_cases hk : ent.1 = k
  · have hb : (ent.1 == k) = true := by simpa using hk
    simp [hb, hk]
  · have hb : (ent.1 == k) = false := by simpa using hk
    simp [hb, hk]

/-- Coordinate round trip on the build loop: when `squareToString` is
injective across the squares with valid coordinates, looking up a square's
coordinate finds exactly that square. -/
theorem buildCoordMapN_roundtrip (sts : Nat → JStr) :
    ∀ (n : Nat),
      (∀ i, i < n → ∀ j, j < n → validCoord (sts i) = true →
        validCoord (sts j) = true → sts i = sts j → i = j) →
      ∀ sq, sq < n → validCoord (sts sq) = true →
        jsObjGet (buildCoordMapN sts n) (sts sq) = some sq := by
  intro n
  induction n with
  | zero => intro _ sq h; omega
  | succ n ih =>
    intro hinj sq hsq hval
    simp only [buildCoordMapN]
    by_cases hvn : validCoord (sts n) = true
    · rw [if_pos hvn, jsObjGet_append_one]
      by_cases heq : sts n = sts sq
      · have hn : n = sq := hinj n (by omega) sq hsq hvn hval heq
        subst hn
        simp [heq]
      · rw [if_neg heq]
        have hlt : sq < n := by
          rcases Nat.lt_succ_iff_lt_or_eq.mp hsq with h | h
          · exact h
          · exact absurd (by rw [h]) heq
        exact ih (fun i hi j hj => hinj i (by omega) j (by omega)) sq hlt hval
    · rw [if_neg hvn, List.append_nil]
      have hlt : sq < n := by
        rcases Nat.lt_succ_iff_lt_or_eq.mp hsq with h | h
        · exact h
        · exact absurd (h ▸ hval) hvn
      exact ih (fun i hi j hj => hinj i (by omega) j (by omega)) sq hlt hval

/-- Every entry of the build loop's map carries a valid coordinate of a
square inside the range: squares without a valid coordinate are omitted. -/
theorem buildCoordMapN_entries (sts : Nat → JStr) :
    ∀ (n : Nat) (p : JStr × Nat), p ∈ buildCoordMapN sts n →
      validCoord p.1 = true ∧ p.2 < n ∧ sts p.2 = p.1 := by
  intro n
  induction n with
  | zero => intro p h; simp [buildCoordMapN] at h
  | succ n ih =>
    intro p h
    simp only [buildCoordMapN, List.mem_append] at h
    rcases h with h | h
    · obtain ⟨k1, k2, k3⟩ := ih p h
      exact ⟨k1, by omega, k3⟩
    · by_cases hvn : validCoord (sts n) = true
      · rw [if_pos hvn] at h
        simp only [List.mem_singleton] at h
        subst h
        exact ⟨hvn, by omega, rfl⟩
      · rw [if_neg hvn] at h
        simp at h

/-- `flipSquare` on a two-character square with a digit rank, computed. -/
theorem flipSquare_pair (a b : Nat) (hb1 : 48 ≤ b) (hb2 : b ≤ 57) :
    flipSquare [a, b] = [(202 - (a : Int)).toNat, (105 - (b : Int)).toNat] := by
  show (if 48 ≤ b ∧ b ≤ 57 then _ else [a, b]) = _
  rw [if_pos ⟨hb1, hb2⟩]
  simp only [fileToIndex, List.cons.injEq, and_true]
  constructor <;> omega

/-- `flipUcci` on a four-character pair splits into the two square flips. -/
theorem flipUcci_pair (a b c d : Nat) :
    flipUcci [a, b, c, d] = flipSquare [a, b] ++ flipSquare [c, d] := by
  unfold flipUcci
  rw [if_neg (by simp)]
  rfl

/-- Double square flip is the identity on an in-range file/rank square. -/
theorem flipSquare_flipSquare (a b : Nat) (ha1 : 97 ≤ a) (ha2 : a ≤ 105)
    (hb1 : 48 ≤ b) (hb2 : b ≤ 57) :
    flipSquare (flipSquare [a, b]) = [a, b] := by
  rw [flipSquare_pair a b hb1 hb2]
  rw [flipSquare_pair _ _ (by omega) (by omega)]
  simp only [List.cons.injEq, and_true]
  constructor <;> omega

/-- `getCoachBookMove` in the first-match scenario: non-empty history of
well-formed tokens, book lines joined from well-formed token sequences, the
first line extending the history giving its next token to the decoder. -/
theorem getCoachBookMove_firstMatch (e : Engine) (ss : List JStr) (hss : ss ≠ [])
    (hwss : ∀ t ∈ ss, wfTok t)
    (pre : List (List JStr)) (l0 : List JStr) (post : List (List JStr))
    (u : JStr) (more : List JStr)
    (hwpre : ∀ l ∈ pre, ∀ t ∈ l, wfTok t)
    (hnp : ∀ l ∈ pre, ¬ ss <+: l)
    (hl0 : l0 = ss ++ u :: more)
    (hwl0 : ∀ t ∈ l0, wfTok t)
    (hocc : ¬ (joinSpace ss <:+: (wsCode :: joinSpace (u :: more))))
    (hgm : e.getMoves = .ok ss) :
    getCoachBookMove e ((pre ++ l0 :: post).map joinSpace) =
      (match e.moveFromString u with | .ok m => .ok m | .error _ => .ok 0) := by
  unfold getCoachBookMove
  have hne : ((pre ++ l0 :: post).map joinSpace).isEmpty = false := by
    simp
  rw [hne]
  simp only [Bool.false_eq_true, if_false, hgm]
  have hmoves : ss.isEmpty = false := by
    cases ss with
    | nil => exact absurd rfl hss
    | cons a l => rfl
  rw [hmoves]
  simp only [Bool.false_eq_true, if_false]
  exact bookScan_firstMatch e ss hss hwss pre l0 post u more hwpre hnp hl0 hwl0 hocc

/-- A non-zero book move short-circuits `pickBestMoveStrong` before any
search: the result does not depend on the search capability at all. -/
theorem pickBestMoveStrong_of_book (e : Engine) (book : List JStr) (d m0 : Nat)
    (h : getCoachBookMove e book = .ok m0) (hm : m0 ≠ 0) :
    pickBestMoveStrong e book d = .ok m0 := by
  unfold pickBestMoveStrong
  rw [h]
  simp [hm]

/-- `getCoachBookMove` with a non-empty book and an empty history decodes
the first token of the first book line. -/
theorem getCoachBookMove_emptyHist (e : Engine) (line1 : JStr) (rest : List JStr)
    (hgm : e.getMoves = .ok []) :
    getCoachBookMove e (line1 :: rest) = e.moveFromString (firstTok line1) := by
  unfold getCoachBookMove
  simp [hgm]

/-!  Concrete data used by witnesses and counterexamples. -/

/-- The coordinate token a0b1. -/
def tokA0B1 : JStr := [97, 48, 98, 49]

/-- The coordinate token c2d3. -/
def tokC2D3 : JStr := [99, 50, 100, 51]

/-- An engine whose history is the single move a0b1, whose decoder knows only
c2d3, and whose search capability and legal-move enumeration always throw:
any suggestion it yields can only have come from the opening book. -/
def engBook : Engine where
  getSide := 0
  getMoves := .ok [tokA0B1]
  moveFromString := fun t => if t = tokC2D3 then .ok 5 else .error ()
  tcSetup := .error ()
  search := fun _ => .error ()
  generateLegalMoves := .error ()
  getSourceSquare := fun _ => 0
  getTargetSquare := fun _ => 1
  squareToString := fun _ => [97, 48]

/-- An engine with an empty history whose decoder knows only a0b1 and whose
search always throws. -/
def engBookFresh : Engine where
  getSide := 0
  getMoves := .ok []
  moveFromString := fun t => if t = tokA0B1 then .ok 9 else .error ()
  tcSetup := .error ()
  search := fun _ => .error ()
  generateLegalMoves := .error ()
  getSourceSquare := fun _ => 0
  getTargetSquare := fun _ => 1
  squareToString := fun _ => [97, 48]

/-- An engine whose history is a0b1, whose decoder maps a0b1 to move 7 and
fails on anything else, and whose search returns move 99. -/
def engBookDup : Engine where
  getSide := 0
  getMoves := .ok [tokA0B1]
  moveFromString := fun t => if t = tokA0B1 then .ok 7 else .error ()
  tcSetup := .ok ()
  search := fun _ => .ok 99
  generateLegalMoves := .ok [3]
  getSourceSquare := fun _ => 0
  getTargetSquare := fun _ => 1
  squareToString := fun _ => [97, 48]

/-- A book line whose token sequence repeats the one-token history: a0b1 a0b1. -/
def lineDup : JStr := tokA0B1 ++ wsCode :: tokA0B1

/-- An engine whose searches throw but which has legal moves available. -/
def engThrow : Engine where
  getSide := 0
  getMoves := .ok []
  moveFromString := fun _ => .ok 1
  tcSetup := .ok ()
  search := fun _ => .error ()
  generateLegalMoves := .ok [42]
  getSourceSquare := fun _ => 0
  getTargetSquare := fun _ => 1
  squareToString := fun _ => [97, 48]

/-- A BLACK-to-move engine with a legal move available and a working search. -/
def engBlack : Engine where
  getSide := 1
  getMoves := .ok []
  moveFromString := fun _ => .ok 1
  tcSetup := .ok ()
  search := fun _ => .ok 7
  generateLegalMoves := .ok [5]
  getSourceSquare := fun _ => 0
  getTargetSquare := fun _ => 1
  squareToString := fun _ => [97, 48]

/-- A RED-to-move engine whose timed search finds move 7. -/
def engRed : Engine where
  getSide := 0
  getMoves := .ok []
  moveFromString := fun _ => .error ()
  tcSetup := .ok ()
  search := fun _ => .ok 7
  generateLegalMoves := .ok [3]
  getSourceSquare := fun _ => 0
  getTargetSquare := fun _ => 1
  squareToString := fun sq => if sq = 0 then [97, 48] else [98, 49]

/-- An engine returning no move anywhere: every step yields the 0 sentinel
without throwing, and the position has no legal moves. -/
def engEmpty : Engine where
  getSide := 0
  getMoves := .ok []
  moveFromString := fun _ => .ok 0
  tcSetup := .ok ()
  search := fun _ => .ok 0
  generateLegalMoves := .ok []
  getSourceSquare := fun _ => 0
  getTargetSquare := fun _ => 1
  squareToString := fun _ => [97, 48]

/-!  The claims. -/

/-- C8: for every well-formed four-character coordinate pair — both files in
the letters a through i (codes 97–105) and both ranks digits (codes 48–57) —
applying the point-reflection `flipUcci` twice is the identity. -/
theorem C8_flipUcci_involutive (a b c d : Nat)
    (h : 97 ≤ a ∧ a ≤ 105 ∧ 48 ≤ b ∧ b ≤ 57 ∧ 97 ≤ c ∧ c ≤ 105 ∧ 48 ≤ d ∧ d ≤ 57) :
    flipUcci (flipUcci [a, b, c, d]) = [a, b, c, d] := by
  obtain ⟨ha1, ha2, hb1, hb2, hc1, hc2, hd1, hd2⟩ := h
  rw [flipUcci_pair a b c d, flipSquare_pair a b hb1 hb2, flipSquare_pair c d hd1 hd2]
  have hcat : ([(202 - (a : Int)).toNat, (105 - (b : Int)).toNat] ++
      [(202 - (c : Int)).toNat, (105 - (d : Int)).toNat] : JStr)
      = [(202 - (a : Int)).toNat, (105 - (b : Int)).toNat,
         (202 - (c : Int)).toNat, (105 - (d : Int)).toNat] := rfl
  rw [hcat, flipUcci_pair, flipSquare_pair _ _ (by omega) (by omega),
    flipSquare_pair _ _ (by omega) (by omega)]
  have hcat2 : ∀ (x y z w : Nat), ([x, y] ++ [z, w] : JStr) = [x, y, z, w] :=
    fun _ _ _ _ => rfl
  rw [hcat2]
  simp only [List.cons.injEq, and_true]
  refine ⟨by omega, by omega, by omega, by omega⟩

/-- C8 witness: the spec's own example pair b2e4. -/
theorem C8_witness : flipUcci (flipUcci [98, 50, 101, 52]) = [98, 50, 101, 52] :=
  C8_flipUcci_involutive 98 50 101 52 (by decide)

/-- C9: with the engine's `squareToString` injective across the squares of
the full 11 × 14 internal range that carry a valid board coordinate (the
to/from-coordinate contract of the consumed engine interface), looking a
square's coordinate up in the once-built `coordToSquare` map returns that
square, and every entry of the map carries a valid coordinate of an in-range
square (squares without a valid coordinate are omitted). -/
theorem C9_coordToSquare_roundtrip (sts : Nat → JStr)
    (hinj : ∀ i, i < 11 * 14 → ∀ j, j < 11 * 14 → validCoord (sts i) = true →
      validCoord (sts j) = true → sts i = sts j → i = j) :
    (∀ sq, sq < 11 * 14 → validCoord (sts sq) = true →
      jsObjGet (coordToSquare sts) (sts sq) = some sq) ∧
    (∀ p ∈ coordToSquare sts, validCoord p.1 = true ∧ p.2 < 11 * 14 ∧ sts p.2 = p.1) :=
  ⟨buildCoordMapN_roundtrip sts (11 * 14) hinj, buildCoordMapN_entries sts (11 * 14)⟩

/-- A small concrete `squareToString`: two on-board squares, all others xx. -/
def stsTwo : Nat → JStr :=
  fun sq => if sq = 3 then [97, 48] else if sq = 7 then [98, 49] else xxStr

set_option maxRecDepth 8000 in
/-- C9 witness: the round trip evaluated on a concrete coordinate map. -/
theorem C9_witness : jsObjGet (coordToSquare stsTwo) (stsTwo 3) = some 3 :=
  (C9_coordToSquare_roundtrip stsTwo (by decide)).1 3 (by decide) (by decide)

/-- A call of the fast-glance `analyzeNow` while `busy` is a no-op. -/
theorem coach_analyzeNow_busy (s : Coach.St) (r : Reason) (now : Nat)
    (hb : s.busy = true) : Coach.analyzeNow s r now = (s, []) := by
  unfold Coach.analyzeNow
  cases he : s.enabled with
  | false => simp [he]
  | true => simp [he, hb]

/-- A call of the ultra `analyzeNow` while `busy` is a no-op. -/
theorem ultra_analyzeNow_busy (s : Ultra.St) (r : Reason) (now : Nat) (key : JStr)
    (hb : s.busy = true) : Ultra.analyzeNow s r now key = (s, []) := by
  unfold Ultra.analyzeNow
  rw [if_pos (Or.inr hb)]

/-- C10: the fast-glance `scheduleAnalyze` records the move count before
`analyzeNow`'s busy check can drop the request, so a trigger dropped while a
run is in flight (whether dropped at once or via its timer firing during the
run) leaves the new count recorded with no pending timer — and from such a
state, non-force triggers with the same move count (and timer firings and run
completions) never start another Resolver run. -/
theorem C10_count_recorded_before_busy_drop :
    (∀ (s : Coach.St) (r : Reason) (now : Nat) (n : Int),
      s.busy = true →
      ¬ (n = s.lastMoveCount ∧ r ≠ .force) →
      Coach.MIN_INTERVAL_MS - (now - s.lastAnalyzeTs) = 0 →
      Coach.step s (.trigger r now n) =
        ({ s with lastMoveCount := n, pendingTimer := none }, [])) ∧
    (∀ (s : Coach.St) (r0 : Reason) (now : Nat),
      s.busy = true → s.pendingTimer = some r0 →
      Coach.step s (.timerFire now) = ({ s with pendingTimer := none }, [])) ∧
    (∀ (s : Coach.St) (n : Int) (evs : List Coach.Ev),
      s.lastMoveCount = n → s.pendingTimer = none →
      (∀ ev ∈ evs, Coach.SameCountEv n ev) →
      (Coach.exec s evs).runsStarted = s.runsStarted) := by
  refine ⟨?_, ?_, fun s n evs h1 h2 h3 => coach_suppressed_exec s n evs h1 h2 h3⟩
  · intro s r now n hbusy hcond hwait
    simp only [Coach.step, Coach.scheduleAnalyze]
    rw [if_neg hcond, hwait]
    rw [if_neg (by omega : ¬ (0 : Nat) < 0)]
    exact coach_analyzeNow_busy _ r now hbusy
  · intro s r0 now hbusy htimer
    simp only [Coach.step, Coach.timerFire, htimer]
    exact coach_analyzeNow_busy _ r0 now hbusy

/-- A fast-glance state with a run in flight (committed at time 1000 on move
count 0) whose change detector will be updated by the next trigger. -/
def stBusy : Coach.St :=
  { enabled := true, busy := true, lastMoveCount := 0, lastBestMoveUcci := [],
    lastAnalyzeTs := 1000, pendingTimer := none, runsInFlight := 1, runsStarted := 1 }

/-- The state `stBusy` after a dropped trigger recorded move count 1. -/
def stBusyRecorded : Coach.St :=
  { stBusy with lastMoveCount := 1, pendingTimer := none }

/-- C10 witness: a trigger for move count 1 arriving at time 1400 while busy
is dropped yet records the count, and two later same-count non-force triggers
start no run. -/
theorem C10_witness :
    Coach.step stBusy (.trigger .move 1400 1) = (stBusyRecorded, []) ∧
    (Coach.exec stBusyRecorded
      [.trigger .move 1500 1, .trigger .undo 1600 1]).runsStarted =
      stBusyRecorded.runsStarted := by
  refine ⟨C10_count_recorded_before_busy_drop.1 stBusy .move 1400 1 rfl
      (by decide) (by decide),
    C10_count_recorded_before_busy_drop.2.2 stBusyRecorded 1
      [.trigger .move 1500 1, .trigger .undo 1600 1] rfl rfl ?_⟩
  intro ev hev
  rcases List.mem_cons.mp hev with h | h
  · subst h; exact ⟨rfl, by decide⟩
  · rcases List.mem_cons.mp h with h | h
    · subst h; exact ⟨rfl, by decide⟩
    · simp at h

/-- C1 counterexample: the puzzle coach (part_000) has no busy guard, so two
`force` triggers in close succession queue two Resolver runs — after the
sequence below two runs have been started and neither has completed, i.e. the
second request was queued rather than dropped while the first was still in
flight. -/
theorem C1_puzzle_two_runs_queued :
    (Puzzle.exec Puzzle.init
      [.trigger .force 0, .timerFire 10000, .trigger .force 0,
       .timerFire 10220]).runsInFlight = 2 ∧
    (Puzzle.exec Puzzle.init
      [.trigger .force 0, .timerFire 10000, .trigger .force 0,
       .timerFire 10220]).runsStarted = 2 := by
  exact ⟨by decide, by decide⟩

/-- C1 amended: in the two variants that have the busy guard (coach.js and
part_001) at most one run is ever queued or executing along any event
sequence, and a request reaching `analyzeNow` while `busy` is set is dropped
with no state change and no queued work; the puzzle variant lacks the guard
and only its throttle limits re-entry. -/
theorem C1_single_flight_amended :
    (∀ evs, (Coach.exec Coach.init evs).runsInFlight ≤ 1) ∧
    (∀ evs, (Ultra.exec Ultra.init evs).runsInFlight ≤ 1) ∧
    (∀ (s : Coach.St) (r : Reason) (now : Nat),
      s.busy = true → Coach.analyzeNow s r now = (s, [])) ∧
    (∀ (s : Ultra.St) (r : Reason) (now : Nat) (key : JStr),
      s.busy = true → Ultra.analyzeNow s r now key = (s, [])) := by
  exact ⟨fun evs => (coachInv_exec Coach.init evs coachInv_init).1,
    fun evs => (ultraInv_exec Ultra.init evs ultraInv_init).1,
    coach_analyzeNow_busy, ultra_analyzeNow_busy⟩

/-- C1 witness: the single-flight bound evaluated on a burst of triggers and
the busy drop evaluated at a concrete busy state. -/
theorem C1_single_flight_witness :
    (Coach.exec Coach.init
      [.trigger .move 1000 1, .trigger .move 1001 2, .timerFire 1002,
       .timerFire 1003]).runsInFlight ≤ 1 ∧
    Coach.analyzeNow stBusy .move 1400 = (stBusy, []) := by
  exact ⟨C1_single_flight_amended.1 _, C1_single_flight_amended.2.2.1 stBusy .move 1400 rfl⟩

/-- A fast-glance state with one run queued (used to execute run closures). -/
def stInFlight : Coach.St :=
  { enabled := true, busy := true, lastMoveCount := 1,
    lastBestMoveUcci := [97, 48, 98, 49], lastAnalyzeTs := 1000,
    pendingTimer := none, runsInFlight := 1, runsStarted := 1 }

/-- C2 counterexample: with BLACK to move and a legal move available, the
fast-glance run produces no suggestion at all — `COACH_ONLY_WHEN_RED_TO_MOVE`
skips the Resolver and renders the empty hint. -/
theorem C2_black_skipped :
    engBlack.getSide = BLACK ∧ engBlack.generateLegalMoves = .ok [5] ∧
    runBody engBlack [] = .ok .skipBlack ∧
    (Coach.runExec stInFlight engBlack []).2 = [Act.render []] := by
  exact ⟨rfl, rfl, rfl, rfl⟩

/-- C2 amended: in the fast-glance profile the run proposes a suggestion only
when RED is to move — with BLACK to move it skips the Resolver and renders
the empty hint; with RED to move, whenever the Resolver yields a non-zero
move whose source square has a non-empty coordinate, the run produces that
move's non-empty coordinate pair. -/
theorem C2_red_only_amended :
    (∀ (e : Engine) (book : List JStr), e.getSide = BLACK →
      runBody e book = .ok .skipBlack) ∧
    (∀ (e : Engine) (book : List JStr) (m : Nat),
      e.getSide = 0 →
      pickBestMoveStrong e book COACH_DEPTH_UI = .ok m → m ≠ 0 →
      e.squareToString (e.getSourceSquare m) ≠ [] →
      runBody e book = .ok (.best (ucciFromMove e m)) ∧ ucciFromMove e m ≠ []) := by
  constructor
  · intro e book hside
    unfold runBody
    rw [if_pos hside]
  · intro e book m hside hpick hm hsts
    have hnb : ¬ e.getSide = BLACK := by
      rw [hside]; decide
    constructor
    · unfold runBody
      rw [if_neg hnb, hpick]
      simp [hm]
    · unfold ucciFromMove
      intro h
      rcases List.append_eq_nil.mp h with ⟨h1, _⟩
      exact hsts h1

/-- C2 witness: the two sides evaluated on concrete engines; the RED engine's
timed search yields move 7 with the non-empty pair a0b1. -/
theorem C2_red_only_witness :
    runBody engBlack [] = .ok .skipBlack ∧
    runBody engRed [] = .ok (.best (ucciFromMove engRed 7)) ∧ ucciFromMove engRed 7 ≠ [] := by
  refine ⟨C2_red_only_amended.1 engBlack [] rfl, ?_⟩
  exact C2_red_only_amended.2 engRed [] 7 rfl rfl (by decide) (by decide)

/-- C3 counterexample: an exception from the search capability at the
timed-search step propagates out of `pickBestMoveStrong` as an error — it is
not caught at that step and does not fall through to the remaining fallback
steps, although a legal move (42) was available to the last-resort step. -/
theorem C3_search_error_propagates :
    pickBestMoveStrong engThrow [] COACH_DEPTH_UI = .error () ∧
    engThrow.generateLegalMoves = .ok [42] := by
  exact ⟨rfl, rfl⟩

/-- `timedSearch` always reaches the search call: the time-control setup
block's `try`/`catch` swallows configuration failures. -/
theorem timedSearch_eq (e : Engine) (d : Nat) : timedSearch e d = e.search d := by
  unfold timedSearch
  cases e.tcSetup <;> rfl

/-- C3 amended: exception handling in the Resolver is per-step only for the
time-control setup and the book decode; an exception from the search itself
propagates out of the Resolver and is caught only at the Scheduler's run
boundary (placeholder label, guard released); when every step returns the 0
sentinel without throwing, the Resolver returns the empty result 0, not an
error. -/
theorem C3_error_handling_amended :
    (∀ (e : Engine) (d : Nat) (er : Unit), e.tcSetup = .error er →
      timedSearch e d = e.search d) ∧
    (∀ (e : Engine) (cur line : JStr) (rest : List JStr) (r : JStr) (er : Unit),
      (jsIncludes line cur && (beforeFirst cur line).isEmpty) = true →
      afterFirst cur line = some r →
      e.moveFromString (firstTok (beforeFirst cur r)) = .error er →
      bookScan e cur (line :: rest) = .ok 0) ∧
    (∀ (e : Engine) (book : List JStr),
      getCoachBookMove e book = .ok 0 → e.search COACH_DEPTH_FALLBACK = .ok 0 →
      e.search COACH_DEPTH_UI = .ok 0 → e.generateLegalMoves = .ok [] →
      pickBestMoveStrong e book COACH_DEPTH_UI = .ok 0) ∧
    (∀ (e : Engine) (book : List JStr) (er : Unit),
      getCoachBookMove e book = .ok 0 → e.search COACH_DEPTH_FALLBACK = .error er →
      pickBestMoveStrong e book COACH_DEPTH_UI = .error er) ∧
    (∀ (s : Coach.St) (e : Engine) (book : List JStr) (er : Unit),
      s.runsInFlight ≠ 0 → runBody e book = .error er →
      (Coach.runExec s e book).1.busy = false ∧
      (Coach.runExec s e book).2 = [Act.placeholder]) := by
  refine ⟨fun e d er _ => timedSearch_eq e d, ?_, ?_, ?_, ?_⟩
  · intro e cur line rest r er hguard hafter hdec
    simp only [bookScan, hguard, if_true, hafter, hdec]
  · intro e book hbook hs18 hs10 hlegal
    unfold pickBestMoveStrong
    rw [hbook]
    simp only [ne_eq, not_true_eq_false, if_false, timedSearch_eq, hs18, hs10, hlegal]
    rfl
  · intro e book er hbook hs18
    unfold pickBestMoveStrong
    rw [hbook]
    simp only [ne_eq, not_true_eq_false, if_false, timedSearch_eq, hs18]
  · intro s e book er hflight herr
    unfold Coach.runExec
    rw [if_neg hflight, herr]
    exact ⟨rfl, rfl⟩

/-- An engine whose time-control configuration block throws. -/
def engTcErr : Engine where
  getSide := 0
  getMoves := .ok []
  moveFromString := fun _ => .ok 1
  tcSetup := .error ()
  search := fun _ => .ok 7
  generateLegalMoves := .ok [3]
  getSourceSquare := fun _ => 0
  getTargetSquare := fun _ => 1
  squareToString := fun _ => [97, 48]

/-- C3 witness: each amended clause evaluated at a concrete input — swallowed
time-control failure, caught book-decode failure on the line a0b1 a0b1,
empty total result on a move-less engine, propagated search error, and the
run boundary catching it. -/
theorem C3_error_handling_witness :
    timedSearch engTcErr COACH_DEPTH_FALLBACK = engTcErr.search COACH_DEPTH_FALLBACK ∧
    bookScan engBookDup tokA0B1 [lineDup] = .ok 0 ∧
    pickBestMoveStrong engEmpty [] COACH_DEPTH_UI = .ok 0 ∧
    pickBestMoveStrong engThrow [] COACH_DEPTH_UI = .error () ∧
    ((Coach.runExec stInFlight engThrow []).1.busy = false ∧
      (Coach.runExec stInFlight engThrow []).2 = [Act.placeholder]) := by
  refine ⟨C3_error_handling_amended.1 engTcErr COACH_DEPTH_FALLBACK () rfl,
    C3_error_handling_amended.2.1 engBookDup tokA0B1 lineDup []
      ([32] ++ tokA0B1) () (by decide) (by decide) (by decide),
    C3_error_handling_amended.2.2.1 engEmpty [] rfl rfl rfl rfl,
    C3_error_handling_amended.2.2.2.1 engThrow [] () rfl rfl,
    C3_error_handling_amended.2.2.2.2 stInFlight engThrow [] () (by decide) rfl⟩

/-- `jsIncludes` agrees with the contiguous-substring relation. -/
theorem jsIncludes_iff (s pat : JStr) : jsIncludes s pat = true ↔ pat <:+: s := by
  induction s with
  | nil =>
    simp [jsIncludes, List.isEmpty_iff]
  | cons c rest ih =>
    simp only [jsIncludes, Bool.or_eq_true, isPrefixOf_eq_true, ih, List.infix_cons_iff]

/-- C4 counterexample: the book line a0b1 a0b1 has the history a0b1 as a
proper token prefix with next token a0b1, which decodes to move 7 — but
since the joined history reoccurs in the line, `line.split(currentLine)[1]`
is the bare separator, the decode of its first (empty) token fails, the book
step yields 0, and the resolver falls through to the search result 99. -/
theorem C4_duplicate_line_falls_to_search :
    ([tokA0B1] <+: [tokA0B1, tokA0B1] ∧
      [tokA0B1, tokA0B1].getD 1 [] = tokA0B1 ∧
      engBookDup.getMoves = .ok [tokA0B1] ∧
      engBookDup.moveFromString tokA0B1 = .ok 7 ∧
      lineDup = joinSpace [tokA0B1, tokA0B1]) ∧
    pickBestMoveStrong engBookDup [lineDup] COACH_DEPTH_UI = .ok 99 := by
  exact ⟨⟨by decide, by decide, rfl, by decide, by decide⟩, by decide⟩

/-- C4 amended: restricted to books of well-formed four-character space-free
tokens in which the joined history does not reoccur inside the matched
line's remainder, the resolver returns the decoding of the token following
the history in the first line whose token sequence properly extends the
history — and with an empty history it returns the decoding of the first
token of the first line.  The engine's search, time-control and legal-move
behaviour is universally quantified and unconstrained, so no search is
involved in the result. -/
theorem C4_book_prefix_amended :
    (∀ (e : Engine) (ss : List JStr) (pre : List (List JStr)) (l0 : List JStr)
        (post : List (List JStr)) (u : JStr) (more : List JStr) (m d : Nat),
      ss ≠ [] → (∀ t ∈ ss, wfTok t) →
      (∀ l ∈ pre, ∀ t ∈ l, wfTok t) →
      (∀ l ∈ pre, ¬ ss <+: l) →
      l0 = ss ++ u :: more →
      (∀ t ∈ l0, wfTok t) →
      ¬ (joinSpace ss <:+: (wsCode :: joinSpace (u :: more))) →
      e.getMoves = .ok ss →
      e.moveFromString u = .ok m → m ≠ 0 →
      pickBestMoveStrong e ((pre ++ l0 :: post).map joinSpace) d = .ok m) ∧
    (∀ (e : Engine) (t : JStr) (more : List JStr) (rest : List JStr) (m d : Nat),
      e.getMoves = .ok [] → t ≠ [] → (∀ c ∈ t, c ≠ wsCode) →
      e.moveFromString t = .ok m → m ≠ 0 →
      pickBestMoveStrong e (joinSpace (t :: more) :: rest) d = .ok m) := by
  constructor
  · intro e ss pre l0 post u more m d hss hwss hwpre hnp hl0 hwl0 hocc hgm hdec hm
    have hbook := getCoachBookMove_firstMatch e ss hss hwss pre l0 post u more
      hwpre hnp hl0 hwl0 hocc hgm
    rw [hdec] at hbook
    exact pickBestMoveStrong_of_book e _ d m hbook hm
  · intro e t more rest m d hgm ht htw hdec hm
    have hbook := getCoachBookMove_emptyHist e (joinSpace (t :: more)) rest hgm
    rw [firstTok_join t more ht htw, hdec] at hbook
    exact pickBestMoveStrong_of_book e _ d m hbook hm

/-- C4 witness: the spec's scenario — book line a0b1 c2d3, history a0b1 —
resolved to the decoding of c2d3 on an engine whose search always throws,
and the empty-history case resolved to the decoding of a0b1. -/
theorem C4_book_prefix_witness :
    pickBestMoveStrong engBook [joinSpace [tokA0B1, tokC2D3]] COACH_DEPTH_UI = .ok 5 ∧
    pickBestMoveStrong engBookFresh [joinSpace [tokA0B1, tokC2D3]] COACH_DEPTH_UI = .ok 9 := by
  constructor
  · refine C4_book_prefix_amended.1 engBook [tokA0B1] [] [tokA0B1, tokC2D3] []
      tokC2D3 [] 5 COACH_DEPTH_UI (by decide) (by decide) (by simp) (by simp)
      rfl (by decide) ?_ rfl (by decide) (by decide)
    intro h
    rw [← jsIncludes_iff] at h
    revert h
    decide
  · exact C4_book_prefix_amended.2 engBookFresh tokA0B1 [tokC2D3] [] 9
      COACH_DEPTH_UI rfl (by decide) (by decide) (by decide) (by decide)

/-- A fast-glance state with a recorded suggestion, idle scheduler. -/
def stIdle : Coach.St :=
  { enabled := true, busy := false, lastMoveCount := 5,
    lastBestMoveUcci := [98, 50, 101, 52], lastAnalyzeTs := 1000,
    pendingTimer := none, runsInFlight := 0, runsStarted := 1 }

/-- C5 counterexample: in the fast-glance scheduler an unchanged-fingerprint
non-force trigger returns immediately — it performs no search but also emits
no render of the last known suggestion. -/
theorem C5_no_rerender_on_short_circuit :
    Coach.step stIdle (.trigger .move 2000 5) = (stIdle, []) ∧
    (Coach.step stIdle (.trigger .move 2000 5)).2 ≠
      [Act.render stIdle.lastBestMoveUcci] := by
  exact ⟨by decide, by decide⟩

/-- C5 amended: a non-force trigger with an unchanged fingerprint never
reaches the Resolver in either scheduler; the ultra scheduler additionally
re-renders the last known suggestion (when enabled, idle, and the
fingerprint truthy), while the fast-glance scheduler returns without any
redraw. -/
theorem C5_short_circuit_amended :
    (∀ (s : Coach.St) (r : Reason) (now : Nat) (n : Int),
      n = s.lastMoveCount → r ≠ .force →
      Coach.step s (.trigger r now n) = (s, [])) ∧
    (∀ (s : Ultra.St) (r : Reason) (now : Nat) (key : JStr),
      s.enabled = true → s.busy = false → key ≠ [] → key = s.lastPositionKey →
      r ≠ .force →
      Ultra.analyzeNow s r now key = (s, [Act.render s.lastBestMoveUcci])) := by
  constructor
  · intro s r now n h1 h2
    simp only [Coach.step, Coach.scheduleAnalyze]
    rw [if_pos ⟨h1, h2⟩]
  · intro s r now key hen hb hk1 hk2 hr
    unfold Ultra.analyzeNow
    rw [if_neg (by simp [hen, hb])]
    rw [if_pos ⟨hk1, hk2, hr⟩]

/-- An ultra state with a recorded fingerprint and suggestion, idle. -/
def stUltra : Ultra.St :=
  { enabled := true, busy := false, lastAnalyzeTs := 1000, pendingTimer := none,
    lastBestMoveUcci := [98, 50, 101, 52], lastPositionKey := [102, 49],
    runsInFlight := 0, runsStarted := 1 }

/-- C5 witness: the two short-circuit behaviours at concrete states. -/
theorem C5_short_circuit_witness :
    Coach.step stIdle (.trigger .undo 2000 5) = (stIdle, []) ∧
    Ultra.analyzeNow stUltra .move 9000 [102, 49] =
      (stUltra, [Act.render stUltra.lastBestMoveUcci]) := by
  exact ⟨C5_short_circuit_amended.1 stIdle .undo 2000 5 rfl (by decide),
    C5_short_circuit_amended.2 stUltra .move 9000 [102, 49] rfl rfl (by decide)
      rfl (by decide)⟩

/-- C6 counterexample: in the fast-glance scheduler two non-force triggers
200 ms apart (throttle floor 350 ms) lead to two Resolver invocations: the
second trigger is deferred behind a pending timer (queued, not dropped),
emits no re-render at that moment, and its timer later starts a second run. -/
theorem C6_throttled_trigger_queued :
    (Coach.exec Coach.init
      [.trigger .move 1000 1, .runExec engRed []]).lastAnalyzeTs = 1000 ∧
    (Coach.exec Coach.init
      [.trigger .move 1000 1, .runExec engRed [],
       .trigger .move 1200 2]).pendingTimer = some .move ∧
    (Coach.step (Coach.exec Coach.init [.trigger .move 1000 1, .runExec engRed []])
      (.trigger .move 1200 2)).2 = [] ∧
    (Coach.exec Coach.init
      [.trigger .move 1000 1, .runExec engRed [],
       .trigger .move 1200 2, .timerFire 1350]).runsStarted = 2 := by
  exact ⟨by decide, by decide, by decide, by decide⟩

/-- C6 amended: the cooldown behaviours differ by profile — the ultra
scheduler drops a too-soon non-force request outright and re-renders the
prior suggestion, while the fast-glance scheduler defers the request behind
a pending timer (no immediate re-render) whose firing, once the scheduler is
idle again, starts a second Resolver run. -/
theorem C6_throttle_amended :
    (∀ (s : Ultra.St) (r : Reason) (now : Nat) (key : JStr),
      s.enabled = true → s.busy = false →
      ¬ (key ≠ [] ∧ key = s.lastPositionKey ∧ r ≠ .force) →
      now - s.lastAnalyzeTs < Ultra.MIN_INTERVAL_MS → r ≠ .force →
      Ultra.analyzeNow s r now key = (s, [Act.render s.lastBestMoveUcci])) ∧
    (∀ (s : Coach.St) (r : Reason) (now : Nat) (n : Int),
      ¬ (n = s.lastMoveCount ∧ r ≠ .force) →
      0 < Coach.MIN_INTERVAL_MS - (now - s.lastAnalyzeTs) →
      Coach.step s (.trigger r now n) =
        ({ s with lastMoveCount := n, pendingTimer := some r }, [])) ∧
    (∀ (s : Coach.St) (r : Reason) (now : Nat),
      s.enabled = true → s.busy = false → s.pendingTimer = some r →
      (Coach.step s (.timerFire now)).1.runsStarted = s.runsStarted + 1) := by
  refine ⟨?_, ?_, ?_⟩
  · intro s r now key hen hb hkey hcool hr
    unfold Ultra.analyzeNow
    rw [if_neg (by simp [hen, hb])]
    rw [if_neg hkey]
    rw [if_pos ⟨hcool, hr⟩]
  · intro s r now n hcond hwait
    simp only [Coach.step, Coach.scheduleAnalyze]
    rw [if_neg hcond]
    rw [if_pos hwait]
  · intro s r now hen hb htimer
    simp only [Coach.step, Coach.timerFire, htimer]
    unfold Coach.analyzeNow
    rw [if_neg (by simp [hen])]
    rw [if_neg (by simp [hb])]

/-- C6 witness: the amended clauses at concrete states — an ultra trigger
600 ms after the last run re-renders and is dropped; a fast-glance trigger
200 ms after the last run is queued; the queued timer firing on an idle
scheduler starts one more run. -/
theorem C6_throttle_witness :
    Ultra.analyzeNow stUltra .move 1600 [103, 50] =
      (stUltra, [Act.render stUltra.lastBestMoveUcci]) ∧
    Coach.step stIdle (.trigger .move 1200 6) =
      ({ stIdle with lastMoveCount := 6, pendingTimer := some .move }, []) ∧
    (Coach.step { stIdle with pendingTimer := some .move }
      (.timerFire 1350)).1.runsStarted = stIdle.runsStarted + 1 := by
  refine ⟨C6_throttle_amended.1 stUltra .move 1600 [103, 50] rfl rfl (by decide)
      (by decide) (by decide),
    C6_throttle_amended.2.1 stIdle .move 1200 6 (by decide) (by decide),
    C6_throttle_amended.2.2 { stIdle with pendingTimer := some .move }
      .move 1350 rfl rfl rfl⟩

/-- C7 counterexample: after a single trigger commits a run, the run is still
in flight (`busy`, one queued closure) yet the timestamp and the fingerprint
are already recorded — they are written at (or before) run start, not at run
completion; and a run completing with a caught error does not store the
run's (empty) suggestion: the previous suggestion a0b1 is retained. -/
theorem C7_records_at_start_not_completion :
    ((Coach.exec Coach.init [.trigger .move 1000 1]).busy = true ∧
      (Coach.exec Coach.init [.trigger .move 1000 1]).runsInFlight = 1 ∧
      (Coach.exec Coach.init [.trigger .move 1000 1]).lastAnalyzeTs = 1000 ∧
      (Coach.exec Coach.init [.trigger .move 1000 1]).lastMoveCount = 1) ∧
    (Coach.runExec stInFlight engThrow []).1.lastBestMoveUcci = [97, 48, 98, 49] := by
  exact ⟨⟨by decide, by decide, by decide, by decide⟩, by decide⟩

/-- C7 amended: the fast-glance scheduler records the timestamp and sets the
single-flight guard when the run is committed (before it executes) — the
fingerprint is recorded even earlier, in `scheduleAnalyze` — and releases the
guard exactly at run completion on every outcome; a successful completion
stores the possibly-empty suggestion and renders it, while a caught-error
completion retains the previous suggestion and renders the placeholder. -/
theorem C7_completion_amended :
    (∀ (s : Coach.St) (r : Reason) (now : Nat),
      s.enabled = true → s.busy = false →
      (Coach.analyzeNow s r now).1.lastAnalyzeTs = now ∧
      (Coach.analyzeNow s r now).1.busy = true ∧
      (Coach.analyzeNow s r now).1.runsInFlight = s.runsInFlight + 1) ∧
    (∀ (s : Coach.St) (e : Engine) (book : List JStr),
      s.runsInFlight ≠ 0 →
      (Coach.runExec s e book).1.busy = false ∧
      (Coach.runExec s e book).1.runsInFlight = s.runsInFlight - 1) ∧
    (∀ (s : Coach.St) (e : Engine) (book : List JStr) (u : JStr),
      s.runsInFlight ≠ 0 → runBody e book = .ok (.best u) →
      (Coach.runExec s e book).1.lastBestMoveUcci = u ∧
      (Coach.runExec s e book).2 = [Act.render u]) ∧
    (∀ (s : Coach.St) (e : Engine) (book : List JStr) (er : Unit),
      s.runsInFlight ≠ 0 → runBody e book = .error er →
      (Coach.runExec s e book).1.lastBestMoveUcci = s.lastBestMoveUcci ∧
      (Coach.runExec s e book).2 = [Act.placeholder]) := by
  refine ⟨?_, ?_, ?_, ?_⟩
  · intro s r now hen hb
    unfold Coach.analyzeNow
    rw [if_neg (by simp [hen])]
    rw [if_neg (by simp [hb])]
    exact ⟨rfl, rfl, rfl⟩
  · intro s e book hflight
    unfold Coach.runExec
    rw [if_neg hflight]
    rcases hrb : runBody e book with er | out
    · exact ⟨rfl, rfl⟩
    · cases out
      · exact ⟨rfl, rfl⟩
      · exact ⟨rfl, rfl⟩
  · intro s e book u hflight hrb
    unfold Coach.runExec
    rw [if_neg hflight, hrb]
    exact ⟨rfl, rfl⟩
  · intro s e book er hflight hrb
    unfold Coach.runExec
    rw [if_neg hflight, hrb]
    exact ⟨rfl, rfl⟩

/-- C7 witness: each amended clause at a concrete state — commit at time
1400, completion on a successful engine (storing and rendering pair a0a0),
and completion on a throwing engine (placeholder, suggestion retained). -/
theorem C7_completion_witness :
    ((Coach.analyzeNow stIdle .move 1400).1.lastAnalyzeTs = 1400 ∧
      (Coach.analyzeNow stIdle .move 1400).1.busy = true ∧
      (Coach.analyzeNow stIdle .move 1400).1.runsInFlight = stIdle.runsInFlight + 1) ∧
    ((Coach.runExec stInFlight engRed []).1.busy = false ∧
      (Coach.runExec stInFlight engRed []).1.runsInFlight = stInFlight.runsInFlight - 1) ∧
    ((Coach.runExec stInFlight engRed []).1.lastBestMoveUcci = ucciFromMove engRed 7 ∧
      (Coach.runExec stInFlight engRed []).2 = [Act.render (ucciFromMove engRed 7)]) ∧
    ((Coach.runExec stInFlight engThrow []).1.lastBestMoveUcci = stInFlight.lastBestMoveUcci ∧
      (Coach.runExec stInFlight engThrow []).2 = [Act.placeholder]) := by
  exact ⟨C7_completion_amended.1 stIdle .move 1400 rfl rfl,
    C7_completion_amended.2.1 stInFlight engRed [] (by decide),
    C7_completion_amended.2.2.1 stInFlight engRed [] (ucciFromMove engRed 7)
      (by decide) rfl,
    C7_completion_amended.2.2.2 stInFlight engThrow [] () (by decide) rfl⟩
